import Mathlib

/-!
Verification development for the vscode-gist command layer (`src/commands.ts`).

The TypeScript source is shallowly embedded: strings are modelled as Lean
`String`s (sequences of Unicode code points), the host filesystem separator
`path.sep` is the POSIX `'/'`, asynchronous handlers are modelled as pure
functions from their inputs (provider behaviour, user prompt responses,
window state) to a trace of observable effects (provider calls, notifications,
opened editors, written files), and a thrown JavaScript error that no
`try/catch` intercepts is recorded in the `uncaught` field of the trace.

The decode regular expression `.*vscode_gist_([^_]*)_[^/]*/(.*)` is embedded
by `decodeAux` below.  JavaScript `.` does not match line terminators; the
embedding treats `.` as matching any character, which coincides with the
JavaScript semantics on paths free of line terminators (every path handled
by the extension).  All concrete inputs used in theorems below are free of
line terminators.
-/

namespace VscodeGist

/-- The filesystem separator (`path.sep` on a POSIX host). -/
def sep : Char := '/'

/-- The separator as a string, used by `path.join`. -/
def sepS : String := "/"

/-- The fixed directory tag `vscode_gist_` used by `_createTmpDir` and matched
by the decode pattern, as a list of characters. -/
def tagL : List Char := "vscode_gist_".data

/-- The identity recovered from an open file's path by `_getCodeFileDetails`
(the `path` field of the TypeScript result, the dirname of the whole match,
is used by no claim and is omitted). -/
structure DocumentIdentity where
  storageBlockId : String
  fileName : String
deriving DecidableEq, Repr

/-- Matching of the part of the pattern after the literal tag:
`([^_]*)_[^/]*/(.*)` applied to the text following an occurrence of
`vscode_gist_`.  `[^_]*` greedily takes the maximal underscore-free run,
then the literal `_` must follow; `[^/]*` greedily takes the maximal
separator-free run, then the separator must follow; `(.*)` takes the rest. -/
def parseAfterTag (s : List Char) : Option (List Char × List Char) :=
  match s.dropWhile (fun c => c != '_') with
  | [] => none
  | _ :: r2 =>
    match r2.dropWhile (fun c => c != sep) with
    | [] => none
    | _ :: rest => some (s.takeWhile (fun c => c != '_'), rest)

/-- Search of `.*vscode_gist_([^_]*)_[^/]*/(.*)` over a whole string.
The leading greedy `.*` makes the backtracking matcher prefer the latest
position at which the remainder of the pattern matches, so the recursion
first tries every later position (the tail) and falls back to the current
one. -/
def decodeAux : List Char → Option (List Char × List Char)
  | [] => none
  | c :: rest =>
    match decodeAux rest with
    | some r => some r
    | none =>
      if tagL.isPrefixOf (c :: rest) then
        parseAfterTag ((c :: rest).drop tagL.length)
      else
        none

/-- Embedding of `_getCodeFileDetails`: match the document's file name against
`.*vscode_gist_([^_]*)_[^/]*/(.*)`; capture 1 is the storage block id,
capture 2 the file name inside the working copy. -/
def getCodeFileDetails (docFileName : String) : Option DocumentIdentity :=
  match decodeAux docFileName.data with
  | some (id, fn) => some ⟨String.mk id, String.mk fn⟩
  | none => none

/-- Embedding of `_createTmpDir`: the name of the allocated directory is
`'vscode_gist_' + key + '_'` followed by the random suffix chosen by
`tmp.dirSync` (passed here as the explicit argument `junk`; `tmp` never puts
a separator in it). -/
def createTmpDirName (key junk : String) : String :=
  "vscode_gist_" ++ key ++ "_" ++ junk

/-- `path.join` of a directory and a relative file name, as used by
`_openTextDocument`. -/
def pathJoin (dir fileName : String) : String :=
  dir ++ sepS ++ fileName

/-- Embedding of `path.basename` (POSIX): the last path segment, ignoring
trailing separators. -/
def basename (p : String) : String :=
  String.mk (((p.data.reverse.dropWhile (fun c => c = sep)).takeWhile (fun c => c != sep)).reverse)

/-- The index of the last `'.'` in a list of characters, or the length of the
list when there is none: `fileName.lastIndexOf('.')` with the `-1` case mapped
to `fileName.length`, exactly as `addToCodeBlock` does. -/
def lastDotIdx : List Char → Nat
  | [] => 0
  | c :: rest => if c = '.' ∧ '.' ∉ rest then 0 else 1 + lastDotIdx rest

/-- One decimal digit as a character. -/
def digitChar : Nat → Char
  | 0 => '0' | 1 => '1' | 2 => '2' | 3 => '3' | 4 => '4'
  | 5 => '5' | 6 => '6' | 7 => '7' | 8 => '8' | _ => '9'

/-- The numeric value of a decimal digit character. -/
def digitVal : Char → Nat
  | '0' => 0 | '1' => 1 | '2' => 2 | '3' => 3 | '4' => 4
  | '5' => 5 | '6' => 6 | '7' => 7 | '8' => 8 | _ => 9

/-- Most-significant-first decimal digits of a positive number; the first
argument is recursion fuel (`numStrAux n n` never exhausts it). -/
def numStrAux : Nat → Nat → List Char
  | 0, _ => []
  | _ + 1, 0 => []
  | fuel + 1, n + 1 => numStrAux fuel ((n + 1) / 10) ++ [digitChar ((n + 1) % 10)]

/-- The decimal representation of a natural number, as produced by the
JavaScript string coercion `'' + i`. -/
def numStr (n : Nat) : List Char :=
  if n = 0 then ['0'] else numStrAux n n

/-- Verification-side inverse of `numStr`: the value of a decimal digit
string (used only to prove `numStr` injective). -/
def decVal (l : List Char) : Nat :=
  l.foldl (fun acc c => 10 * acc + digitVal c) 0

/-- The candidate file name tried by `addToCodeBlock` at counter value `i`:
`originalFileName.substring(0, extPos) + i + originalFileName.substr(extPos)`
where `extPos` is the position of the last dot (or the length when none). -/
def candidate (original : List Char) (i : Nat) : List Char :=
  original.take (lastDotIdx original) ++ numStr i ++ original.drop (lastDotIdx original)

/-- The collision loop of `addToCodeBlock`: while the current candidate is a
key of the block's file mapping, build the next candidate from the original
name and the counter, then increment the counter.  The JavaScript `while` loop
carries no fuel; `files.length + 1` iterations are proved sufficient below
(`resolveLoop_fuel` reasoning inside the C4 theorem). -/
def resolveLoop (files : List String) (original : List Char) : Nat → Nat → List Char → List Char
  | 0, _, fileName => fileName
  | fuel + 1, i, fileName =>
    if String.mk fileName ∈ files then
      resolveLoop files original fuel (i + 1) (candidate original i)
    else fileName

/-- The file name under which `addToCodeBlock` persists a new file, given the
keys of the target block's file mapping. -/
def resolveCollision (files : List String) (fileName : String) : String :=
  String.mk (resolveLoop files fileName.data (files.length + 1) 1 fileName.data)

/-! ## Data model and effect traces -/

/-- The focused editor as the handlers see it: the document's path and full
text, and the current selection (`selection.isEmpty` and the selected text). -/
structure Editor where
  docFileName : String
  fullText : String
  selEmpty : Bool
  selText : String
deriving DecidableEq, Repr

/-- A remote storage block (`StorageBlock` of the provider contract); `files`
is the file mapping in its iteration order. -/
structure StorageBlock where
  id : String
  url : String
  description : String
  html_url : String
  files : List (String × String)
deriving DecidableEq, Repr

/-- One call to the current provider. -/
inductive ProviderCall where
  | login (username password : String)
  | list (favorite : Bool)
  | getStorageBlock (url : String)
  | getStorageBlockById (id : String)
  | createFile (fileName : String) (description : Option String) (content : String) (isPrivate : Bool)
  | editFile (blockId fileName content : String)
  | removeFileFromStorageBlock (blockId fileName : String)
  | deleteStorageBlock (blockId : String)
  | changeDescription (blockId description : String)
deriving DecidableEq, Repr

/-- The behaviour of the current provider: its name, authentication state and
the outcome of each contract operation. -/
structure ProviderEnv where
  name : String
  isAuthenticated : Bool
  login : String → String → Except String Unit
  list : Bool → Except String (List StorageBlock)
  getStorageBlock : String → Except String StorageBlock
  getStorageBlockById : String → Except String StorageBlock
  createFile : String → Option String → String → Bool → Except String StorageBlock
  editFile : String → String → String → Except String Unit
  removeFileFromStorageBlock : String → String → Except String Unit
  deleteStorageBlock : String → Except String Unit
  changeDescription : String → String → Except String Unit

/-- The host window: the paths of the visible text editors and the path of the
active one. -/
structure WindowState where
  openEditors : List String
  active : Option String
deriving DecidableEq, Repr

/-- The observable effects of one handler invocation.  `uncaught` records a
JavaScript error thrown outside every `try` block of the handler (the
handler's promise rejects and the host sees the error). -/
structure Trace where
  calls : List ProviderCall
  errors : List String
  notes : List String
  prompts : List (String × Option String)
  browser : List String
  uiCommands : List String
  writes : List (String × String)
  uncaught : Option String
deriving DecidableEq, Repr

/-- The empty trace. -/
def Trace.empty : Trace := ⟨[], [], [], [], [], [], [], none⟩

/-- The error notification text built by `_showError`. -/
def showErrorMsg (providerName msg : String) : String :=
  "GIST ERROR: " ++ msg ++ " [" ++ providerName ++ "]"

/-- The information notification text built by `_notify`. -/
def notifyMsg (providerName msg : String) : String :=
  "GIST MESSAGE: " ++ msg ++ " [" ++ providerName ++ "]"

/-- The message of the TypeError raised by JavaScript when member access or
destructuring is applied to `undefined`. -/
def undefinedAccessMsg : String := "Cannot read properties of undefined"

/-! ## Handler embeddings -/

/-- Embedding of `_loginUser`: resolve at once when the provider is
authenticated; otherwise prompt for username and password (a cancelled input
box yields `undefined` and the immediate `.trim()` throws a TypeError, which
the caller's `catch` receives) and call the provider's login.  Returns the
outcome together with the provider calls made. -/
def loginUser (env : ProviderEnv) (usernameIn passwordIn : Option String) :
    Except String Unit × List ProviderCall :=
  if env.isAuthenticated then (.ok (), [])
  else
    match usernameIn with
    | none => (.error undefinedAccessMsg, [])
    | some u =>
      match passwordIn with
      | none => (.error undefinedAccessMsg, [])
      | some p => (env.login u.trim p.trim, [.login u.trim p.trim])

/-- Embedding of `_selectCodeBlock`: log the user in, list the blocks, let the
user pick one (`pick` is the index chosen in the quick-pick menu, `none` when
dismissed), and fetch the chosen block. -/
def selectCodeBlock (env : ProviderEnv) (usernameIn passwordIn : Option String)
    (pick : Option Nat) (favorite : Bool) :
    Except String (Option StorageBlock) × List ProviderCall :=
  match loginUser env usernameIn passwordIn with
  | (.error e, cs) => (.error e, cs)
  | (.ok _, cs) =>
    match env.list favorite with
    | .error e => (.error e, cs ++ [.list favorite])
    | .ok files =>
      match pick.bind files.get? with
      | none => (.ok none, cs ++ [.list favorite])
      | some selected =>
        match env.getStorageBlock selected.url with
        | .error e => (.error e, cs ++ [.list favorite, .getStorageBlock selected.url])
        | .ok cb => (.ok (some cb), cs ++ [.list favorite, .getStorageBlock selected.url])

/-- The loop of `openCodeBlock` over the block's files: the counter `i` is the
1-based index of the current file; for every file after the first the handler
focuses the first editor group and splits, then `_openTextDocument` writes the
file under the working directory and opens it (the new editor becomes
active).  Returns the workbench commands executed, the writes performed and
the final window state. -/
def openFilesLoop (dir : String) :
    List (String × String) → Nat → WindowState → List String × List (String × String) × WindowState
  | [], _, w => ([], [], w)
  | (fn, content) :: rest, i, w =>
    let cmds := if 1 < i then ["workbench.action.focusFirstEditorGroup", "workbench.action.splitEditor"] else []
    let p := pathJoin dir fn
    let r := openFilesLoop dir rest (i + 1) ⟨w.openEditors ++ [p], some p⟩
    (cmds ++ r.1, (p, content) :: r.2.1, r.2.2)

/-- Embedding of `openCodeBlock`: select a block; when one is obtained,
allocate the working directory (`tmpParent` is the temp root and `junk` the
random suffix chosen by `tmp`), close the other editors when an active editor
exists, and open every file of the block in order. -/
def openCodeBlock (env : ProviderEnv) (usernameIn passwordIn : Option String)
    (pick : Option Nat) (favorite : Bool) (tmpParent junk : String) (w : WindowState) :
    Trace × WindowState :=
  match selectCodeBlock env usernameIn passwordIn pick favorite with
  | (.error e, cs) => ({ Trace.empty with calls := cs, errors := [showErrorMsg env.name e] }, w)
  | (.ok none, cs) => ({ Trace.empty with calls := cs }, w)
  | (.ok (some cb), cs) =>
    let dir := pathJoin tmpParent (createTmpDirName cb.id junk)
    let closeCmds := if w.active.isSome then ["workbench.action.closeOtherEditors"] else []
    let w1 : WindowState :=
      match w.active with
      | some a => ⟨[a], some a⟩
      | none => w
    let r := openFilesLoop dir cb.files 1 w1
    ({ Trace.empty with calls := cs, uiCommands := closeCmds ++ r.1, writes := r.2.1 }, r.2.2)

/-- Embedding of `createCodeBlock`: require a focused editor, take the
selection's text when the selection is non-empty and the whole document's text
otherwise, prompt for a description and a privacy answer (a cancelled privacy
prompt makes the immediate `.substr` throw inside the `try`), create the
remote block and open its page in the browser. -/
def createCodeBlock (env : ProviderEnv) (activeEditor : Option Editor)
    (descIn privIn : Option String) : Trace :=
  match activeEditor with
  | none => { Trace.empty with errors := [showErrorMsg env.name "Open a file before creating"] }
  | some ed =>
    let text := if ed.selEmpty then ed.fullText else ed.selText
    let b := basename ed.docFileName
    let fileName := if b = "" then "untitled.txt" else b
    let prompts : List (String × Option String) :=
      [("Enter description", none), ("Private? Y = Yes, N = No", none)]
    match privIn with
    | none =>
      { Trace.empty with prompts := prompts, errors := [showErrorMsg env.name undefinedAccessMsg] }
    | some pv =>
      let isPrivate := ((pv.take 1).data.map Char.toLower) == "y".data
      match env.createFile fileName descIn text isPrivate with
      | .error e =>
        { Trace.empty with
            prompts := prompts,
            calls := [.createFile fileName descIn text isPrivate],
            errors := [showErrorMsg env.name e] }
      | .ok sb =>
        { Trace.empty with
            prompts := prompts,
            calls := [.createFile fileName descIn text isPrivate],
            browser := [sb.html_url] }

/-- Embedding of `_getCurrentDocument`: the identity decoded from the active
editor's document; an error when there is no active editor or the document
does not decode. -/
def getCurrentDocument (env : ProviderEnv) (w : WindowState) : Except String DocumentIdentity :=
  match w.active with
  | none => .error "No open documents"
  | some a =>
    match getCodeFileDetails a with
    | none => .error ("Not a code block in " ++ env.name)
    | some d => .ok d

/-- Embedding of `openCodeBlockInBrowser`. -/
def openCodeBlockInBrowser (env : ProviderEnv) (w : WindowState) : Trace :=
  match getCurrentDocument env w with
  | .error e => { Trace.empty with errors := [showErrorMsg env.name e] }
  | .ok d =>
    match env.getStorageBlockById d.storageBlockId with
    | .error e =>
      { Trace.empty with
          calls := [.getStorageBlockById d.storageBlockId],
          errors := [showErrorMsg env.name e] }
    | .ok sb =>
      { Trace.empty with
          calls := [.getStorageBlockById d.storageBlockId],
          browser := [sb.html_url] }

/-- Embedding of `workbench.action.closeActiveEditor`: the active editor (when
one exists) is removed from the visible editors; which editor the host focuses
next is outside the extension's control and is supplied as `policy`. -/
def closeActiveEditor (policy : List String → Option String) (w : WindowState) : WindowState :=
  match w.active with
  | none => w
  | some a =>
    let l := w.openEditors.erase a
    ⟨l, policy l⟩

/-- The editors that survive the `closeOtherEditors` step of `openCodeBlock`:
the active editor when one exists (that command keeps it), and all visible
editors when none is active (nothing is closed then). -/
def survivors (w : WindowState) : List String :=
  match w.active with
  | some a => [a]
  | none => w.openEditors

/-- The sweep loop of `deleteCodeBlock`: over the snapshot of visible editors,
decode each one and, on a block-id match, execute `closeActiveEditor`. -/
def deleteSweep (blockId : String) (policy : List String → Option String) :
    List String → WindowState → WindowState
  | [], w => w
  | e :: rest, w =>
    let w' :=
      match getCodeFileDetails e with
      | some d => if d.storageBlockId = blockId then closeActiveEditor policy w else w
      | none => w
    deleteSweep blockId policy rest w'

/-- Embedding of `deleteCodeBlock`: resolve the current block, delete it
remotely, then sweep the visible editors. -/
def deleteCodeBlock (env : ProviderEnv) (policy : List String → Option String)
    (w : WindowState) : Trace × WindowState :=
  match getCurrentDocument env w with
  | .error e => ({ Trace.empty with errors := [showErrorMsg env.name e] }, w)
  | .ok d =>
    match env.deleteStorageBlock d.storageBlockId with
    | .error e =>
      ({ Trace.empty with
          calls := [.deleteStorageBlock d.storageBlockId],
          errors := [showErrorMsg env.name e] }, w)
    | .ok _ =>
      let w' := deleteSweep d.storageBlockId policy w.openEditors w
      ({ Trace.empty with
          calls := [.deleteStorageBlock d.storageBlockId],
          notes := [notifyMsg env.name "Block Deleted"] }, w')

/-- Embedding of `removeFileFromCodeBlock`. -/
def removeFileFromCodeBlock (env : ProviderEnv) (policy : List String → Option String)
    (w : WindowState) : Trace × WindowState :=
  match getCurrentDocument env w with
  | .error e => ({ Trace.empty with errors := [showErrorMsg env.name e] }, w)
  | .ok d =>
    match env.removeFileFromStorageBlock d.storageBlockId d.fileName with
    | .error e =>
      ({ Trace.empty with
          calls := [.removeFileFromStorageBlock d.storageBlockId d.fileName],
          errors := [showErrorMsg env.name e] }, w)
    | .ok _ =>
      ({ Trace.empty with
          calls := [.removeFileFromStorageBlock d.storageBlockId d.fileName],
          notes := [notifyMsg env.name "File Removed From Block"] },
       closeActiveEditor policy w)

/-- Embedding of `addToCodeBlock`: require a focused editor, take its text and
file name, let the user pick a target block, resolve the file-name collision
and persist the file through the provider's edit operation. -/
def addToCodeBlock (env : ProviderEnv) (activeEditor : Option Editor)
    (usernameIn passwordIn : Option String) (pick : Option Nat) : Trace :=
  match activeEditor with
  | none => { Trace.empty with errors := [showErrorMsg env.name "Open a file before adding"] }
  | some ed =>
    let text := if ed.selEmpty then ed.fullText else ed.selText
    let b := basename ed.docFileName
    let fileName0 := if b = "" then "untitled.txt" else b
    match selectCodeBlock env usernameIn passwordIn pick false with
    | (.error e, cs) => { Trace.empty with calls := cs, errors := [showErrorMsg env.name e] }
    | (.ok none, cs) => { Trace.empty with calls := cs }
    | (.ok (some cb), cs) =>
      let fn := resolveCollision (cb.files.map Prod.fst) fileName0
      match env.editFile cb.id fn text with
      | .error e =>
        { Trace.empty with
            calls := cs ++ [.editFile cb.id fn text],
            errors := [showErrorMsg env.name e] }
      | .ok _ =>
        { Trace.empty with
            calls := cs ++ [.editFile cb.id fn text],
            notes := [notifyMsg env.name "File Added To Block"] }

/-- Embedding of `changeCodeBlockDescription`: resolve the current block,
fetch it, prompt with the current description pre-filled; an empty or
cancelled answer returns silently, otherwise the description is persisted. -/
def changeCodeBlockDescription (env : ProviderEnv) (w : WindowState)
    (descIn : Option String) : Trace :=
  match getCurrentDocument env w with
  | .error e => { Trace.empty with errors := [showErrorMsg env.name e] }
  | .ok d =>
    match env.getStorageBlockById d.storageBlockId with
    | .error e =>
      { Trace.empty with
          calls := [.getStorageBlockById d.storageBlockId],
          errors := [showErrorMsg env.name e] }
    | .ok cb =>
      let prompts := [("Enter Description", some cb.description)]
      match descIn with
      | none =>
        { Trace.empty with calls := [.getStorageBlockById d.storageBlockId], prompts := prompts }
      | some desc =>
        if desc = "" then
          { Trace.empty with calls := [.getStorageBlockById d.storageBlockId], prompts := prompts }
        else
          match env.changeDescription d.storageBlockId desc with
          | .error e =>
            { Trace.empty with
                calls := [.getStorageBlockById d.storageBlockId,
                .changeDescription d.storageBlockId desc],
                prompts := prompts, errors := [showErrorMsg env.name e] }
          | .ok _ =>
            { Trace.empty with
                calls := [.getStorageBlockById d.storageBlockId,
                .changeDescription d.storageBlockId desc],
                prompts := prompts, notes := [notifyMsg env.name "Block Description Saved"] }

/-- Embedding of `onSaveTextDocument`.  The source destructures the result of
`_getCodeFileDetails` before entering its `try` block; when the decode fails
that result is `undefined` and the destructuring throws a TypeError that
nothing catches, so the handler's promise rejects (`uncaught`).  When the
decode succeeds, a falsy (empty) block id skips the provider call silently;
otherwise the document's full text is pushed via the provider's edit
operation. -/
def onSaveTextDocument (env : ProviderEnv) (docFileName docText : String) : Trace :=
  match getCodeFileDetails docFileName with
  | none => { Trace.empty with uncaught := some undefinedAccessMsg }
  | some d =>
    if d.storageBlockId = "" then Trace.empty
    else
      match env.editFile d.storageBlockId d.fileName docText with
      | .error e =>
        { Trace.empty with
            calls := [.editFile d.storageBlockId d.fileName docText],
            errors := [showErrorMsg env.name e] }
      | .ok _ =>
        { Trace.empty with
            calls := [.editFile d.storageBlockId d.fileName docText],
            notes := [notifyMsg env.name "File Saved To Block"] }

/-- A sample provider behaviour used to evaluate the handlers at concrete
inputs: it is authenticated and every operation succeeds. -/
def sampleProvider : ProviderEnv :=
  ⟨"github", true, fun _ _ => .ok (), fun _ => .ok [], fun _ => .error "unreachable",
   fun _ => .error "unreachable", fun _ _ _ _ => .error "unreachable", fun _ _ _ => .ok (),
   fun _ _ => .ok (), fun _ => .ok (), fun _ _ => .ok ()⟩

/-- A sample one-file storage block used to evaluate the handlers. -/
def sampleBlock : StorageBlock :=
  ⟨"B", "u1", "d", "http://host/B", [("a.txt", "txt")]⟩

/-- A provider whose listing offers exactly `sampleBlock`. -/
def sampleBlockProvider : ProviderEnv :=
  ⟨"github", true, fun _ _ => .ok (), fun _ => .ok [sampleBlock], fun _ => .ok sampleBlock,
   fun _ => .ok sampleBlock, fun _ _ _ _ => .error "unreachable", fun _ _ _ => .ok (),
   fun _ _ => .ok (), fun _ => .ok (), fun _ _ => .ok ()⟩

/-- A sample two-file storage block used to evaluate `openCodeBlock`. -/
def sampleBlock2 : StorageBlock :=
  ⟨"abc123", "u2", "d2", "http://host/abc123", [("index.js", "js"), ("style.css", "css")]⟩

/-- A provider whose listing offers exactly `sampleBlock2`. -/
def sampleBlock2Provider : ProviderEnv :=
  ⟨"github", true, fun _ _ => .ok (), fun _ => .ok [sampleBlock2], fun _ => .ok sampleBlock2,
   fun _ => .ok sampleBlock2, fun _ _ _ _ => .error "unreachable", fun _ _ _ => .ok (),
   fun _ _ => .ok (), fun _ => .ok (), fun _ _ => .ok ()⟩

/-! ## Lemmas about the identity codec -/

theorem takeWhile_append_cons {p : Char → Bool} (xs : List Char) (y : Char) (ys : List Char)
    (hxs : ∀ c ∈ xs, p c = true) (hy : p y = false) :
    (xs ++ y :: ys).takeWhile p = xs := by
  induction xs with
  | nil => simp [List.takeWhile_cons, hy]
  | cons a t ih =>
    have ha : p a = true := hxs a (List.mem_cons_self a t)
    simp [List.takeWhile_cons, ha, ih (fun c hc => hxs c (List.mem_cons_of_mem a hc))]

theorem dropWhile_append_cons {p : Char → Bool} (xs : List Char) (y : Char) (ys : List Char)
    (hxs : ∀ c ∈ xs, p c = true) (hy : p y = false) :
    (xs ++ y :: ys).dropWhile p = y :: ys := by
  induction xs with
  | nil => simp [List.dropWhile_cons, hy]
  | cons a t ih =>
    have ha : p a = true := hxs a (List.mem_cons_self a t)
    simp [List.dropWhile_cons, ha, ih (fun c hc => hxs c (List.mem_cons_of_mem a hc))]

theorem decodeAux_eq_none (s : List Char)
    (h : ∀ t, t <:+ s → tagL.isPrefixOf t = true → parseAfterTag (t.drop tagL.length) = none) :
    decodeAux s = none := by
  induction s with
  | nil => rfl
  | cons c rest ih =>
    have hrest : decodeAux rest = none :=
      ih (fun t ht htag => h t (ht.trans (List.suffix_cons c rest)) htag)
    simp only [decodeAux, hrest]
    cases htag : tagL.isPrefixOf (c :: rest) with
    | true => simpa using h (c :: rest) (List.suffix_refl _) htag
    | false => rfl

theorem parse_none_of_decodeAux_none (s : List Char) (h : decodeAux s = none) :
    ∀ t, t <:+ s → tagL.isPrefixOf t = true → parseAfterTag (t.drop tagL.length) = none := by
  induction s with
  | nil =>
    intro t ht htag
    rw [List.suffix_nil.mp ht] at htag
    exact absurd htag (by decide)
  | cons c rest ih =>
    intro t ht htag
    have hsplit : decodeAux rest = none ∧
        (tagL.isPrefixOf (c :: rest) = true → parseAfterTag ((c :: rest).drop tagL.length) = none) := by
      simp only [decodeAux] at h
      cases hr : decodeAux rest with
      | some r => rw [hr] at h; exact absurd h (by simp)
      | none =>
        rw [hr] at h
        refine ⟨rfl, fun hp => ?_⟩
        rw [hp] at h
        simpa using h
    rcases List.suffix_cons_iff.mp ht with h1 | h2
    · subst h1; exact hsplit.2 htag
    · exact ih hsplit.1 t h2 htag

theorem decodeAux_cons_none (c : Char) (s : List Char) (h : decodeAux s = none) :
    decodeAux (c :: s) =
      if tagL.isPrefixOf (c :: s) = true then parseAfterTag ((c :: s).drop tagL.length)
      else none := by
  simp only [decodeAux, h]

theorem decodeAux_cons_some (c : Char) (s : List Char) (r : List Char × List Char)
    (h : decodeAux s = some r) : decodeAux (c :: s) = some r := by
  simp only [decodeAux, h]

theorem decodeAux_append_some (xs s : List Char) (r : List Char × List Char)
    (h : decodeAux s = some r) : decodeAux (xs ++ s) = some r := by
  induction xs with
  | nil => simpa using h
  | cons c t ih => exact (List.cons_append c t s) ▸ decodeAux_cons_some c (t ++ s) r ih

theorem suffix_append_cons {t xs ys : List Char} {y : Char} (h : t <:+ xs ++ y :: ys) :
    t <:+ ys ∨ t = y :: ys ∨ ∃ u, u <:+ xs ∧ u ≠ [] ∧ t = u ++ y :: ys := by
  induction xs with
  | nil =>
    rcases List.suffix_cons_iff.mp h with h1 | h2
    · exact Or.inr (Or.inl h1)
    · exact Or.inl h2
  | cons a xs' ih =>
    rcases List.suffix_cons_iff.mp h with h1 | h2
    · exact Or.inr (Or.inr ⟨a :: xs', List.suffix_refl _, List.cons_ne_nil a xs', h1⟩)
    · rcases ih h2 with h3 | h3 | ⟨u, hu, hne, htu⟩
      · exact Or.inl h3
      · exact Or.inr (Or.inl h3)
      · exact Or.inr (Or.inr ⟨u, hu.trans (List.suffix_cons a xs'), hne, htu⟩)

theorem mem_of_prefix_append_cons {pre u v : List Char} {y : Char}
    (h : pre <+: u ++ y :: v) (hlen : u.length < pre.length) : y ∈ pre := by
  induction u generalizing pre with
  | nil =>
    cases pre with
    | nil => simp at hlen
    | cons p ps =>
      have := (List.cons_prefix_cons.mp h).1
      rw [this]
      exact List.mem_cons_self y ps
  | cons a u' ih =>
    cases pre with
    | nil => simp at hlen
    | cons p ps =>
      obtain ⟨_, hps⟩ := List.cons_prefix_cons.mp h
      exact List.mem_cons_of_mem p (ih hps (by simpa using hlen))

theorem prefix_of_append_of_le {pre u v : List Char} (h : pre <+: u ++ v)
    (hlen : pre.length ≤ u.length) : pre <+: u := by
  have h1 : pre = (u ++ v).take pre.length := List.prefix_iff_eq_take.mp h
  rw [List.take_append_of_le_length hlen] at h1
  refine ⟨u.drop pre.length, ?_⟩
  nth_rewrite 1 [h1]
  exact List.take_append_drop _ _

theorem tagL_eq : tagL = 'v' :: "scode_gist_".data := by decide

theorem parseAfterTag_designated (B J F : List Char) (hB : '_' ∉ B) (hJ : sep ∉ J) :
    parseAfterTag (B ++ '_' :: (J ++ sep :: F)) = some (B, F) := by
  have hBp : ∀ c ∈ B, (c != '_') = true := fun c hc => bne_iff_ne.mpr (fun e => hB (e ▸ hc))
  have hJp : ∀ c ∈ J, (c != sep) = true := fun c hc => bne_iff_ne.mpr (fun e => hJ (e ▸ hc))
  have h1 : (B ++ '_' :: (J ++ sep :: F)).dropWhile (fun c => c != '_') = '_' :: (J ++ sep :: F) :=
    dropWhile_append_cons B '_' (J ++ sep :: F) hBp (by simp)
  have h2 : (J ++ sep :: F).dropWhile (fun c => c != sep) = sep :: F :=
    dropWhile_append_cons J sep F hJp (by simp)
  have h3 : (B ++ '_' :: (J ++ sep :: F)).takeWhile (fun c => c != '_') = B :=
    takeWhile_append_cons B '_' (J ++ sep :: F) hBp (by simp)
  simp only [parseAfterTag, h1, h2, h3]

theorem decodeAux_designated (P B J F : List Char) (hB : '_' ∉ B) (hJ : sep ∉ J)
    (hA : ∀ u, u <:+ tagL ++ B ++ '_' :: J → tagL.isPrefixOf u = true →
      u = tagL ++ B ++ '_' :: J)
    (hF : decodeAux F = none) :
    decodeAux (P ++ (tagL ++ B ++ '_' :: J) ++ sep :: F) = some (B, F) := by
  rw [List.append_assoc]
  apply decodeAux_append_some
  have hshape : (tagL ++ B ++ '_' :: J) ++ sep :: F
      = 'v' :: ("scode_gist_".data ++ B ++ '_' :: J ++ sep :: F) := by
    rw [tagL_eq]; simp
  have htail : decodeAux ("scode_gist_".data ++ B ++ '_' :: J ++ sep :: F) = none := by
    apply decodeAux_eq_none
    intro t ht htag
    have ht' : t <:+ ("scode_gist_".data ++ B ++ '_' :: J) ++ sep :: F := by
      simpa [List.append_assoc] using ht
    rcases suffix_append_cons ht' with h1 | h1 | ⟨u, hu, hne, htu⟩
    · exact parse_none_of_decodeAux_none F hF t h1 htag
    · subst h1
      have hvp : tagL <+: sep :: F := List.isPrefixOf_iff_prefix.mp htag
      rw [tagL_eq] at hvp
      have := (List.cons_prefix_cons.mp hvp).1
      exact absurd this (by decide)
    · subst htu
      have hpre : tagL <+: u ++ sep :: F := List.isPrefixOf_iff_prefix.mp htag
      by_cases hlen : tagL.length ≤ u.length
      · have hpu : tagL <+: u := prefix_of_append_of_le hpre hlen
        have husuf : u <:+ tagL ++ B ++ '_' :: J := by
          refine hu.trans ?_
          have hc : tagL ++ B ++ '_' :: J
              = 'v' :: ("scode_gist_".data ++ B ++ '_' :: J) := by
            rw [tagL_eq]; simp
          rw [hc]
          exact List.suffix_cons _ _
        have hue := hA u husuf (List.isPrefixOf_iff_prefix.mpr hpu)
        have hlt : u.length < (tagL ++ B ++ '_' :: J).length := by
          have h1 : u.length ≤ ("scode_gist_".data ++ B ++ '_' :: J).length :=
            hu.length_le
          have h2 : (tagL ++ B ++ '_' :: J).length
              = ("scode_gist_".data ++ B ++ '_' :: J).length + 1 := by
            rw [tagL_eq]; simp
          omega
        rw [hue] at hlt
        exact absurd hlt (lt_irrefl _)
      · push_neg at hlen
        have : sep ∈ tagL := mem_of_prefix_append_cons hpre hlen
        exact absurd this (by decide)
  rw [hshape, decodeAux_cons_none _ _ htail]
  have hpref : tagL.isPrefixOf
      ('v' :: ("scode_gist_".data ++ B ++ '_' :: J ++ sep :: F)) = true := by
    apply List.isPrefixOf_iff_prefix.mpr
    rw [tagL_eq]
    refine List.cons_prefix_cons.mpr ⟨rfl, ?_⟩
    simp [List.append_assoc]
  rw [hpref]
  simp only [if_true]
  have hdrop : ('v' :: ("scode_gist_".data ++ B ++ '_' :: J ++ sep :: F)).drop tagL.length
      = B ++ '_' :: (J ++ sep :: F) := by
    have hc : 'v' :: ("scode_gist_".data ++ B ++ '_' :: J ++ sep :: F)
        = tagL ++ (B ++ '_' :: (J ++ sep :: F)) := by
      rw [tagL_eq]; simp
    rw [hc, List.drop_left]
  rw [hdrop]
  exact parseAfterTag_designated B J F hB hJ

theorem getCodeFileDetails_eq_none_iff (s : String) :
    getCodeFileDetails s = none ↔ decodeAux s.data = none := by
  unfold getCodeFileDetails
  cases h : decodeAux s.data with
  | none => simp
  | some r => simp

/-- The round trip of the codec, in its provable general form: decoding
`pre ++ 'vscode_gist_' ++ blockId ++ '_' ++ junk ++ '/' ++ fileName` recovers
`(blockId, fileName)` whenever `blockId` is underscore-free, `junk` is
separator-free, the directory name contains the tag only at its start, and
`fileName` does not itself match the pattern. -/
theorem getCodeFileDetails_roundTrip (pre blockId junk fileName : String)
    (hB : '_' ∉ blockId.data) (hJ : sep ∉ junk.data)
    (hA : ∀ u ∈ (createTmpDirName blockId junk).data.tails,
        tagL.isPrefixOf u = true → u = (createTmpDirName blockId junk).data)
    (hF : getCodeFileDetails fileName = none) :
    getCodeFileDetails (pre ++ pathJoin (createTmpDirName blockId junk) fileName)
      = some ⟨blockId, fileName⟩ := by
  have hdata : (pre ++ pathJoin (createTmpDirName blockId junk) fileName).data
      = pre.data ++ (tagL ++ blockId.data ++ '_' :: junk.data) ++ sep :: fileName.data := by
    simp [pathJoin, createTmpDirName, sepS, sep, String.data_append, tagL, List.append_assoc]
  have hA' : ∀ u, u <:+ tagL ++ blockId.data ++ '_' :: junk.data →
      tagL.isPrefixOf u = true → u = tagL ++ blockId.data ++ '_' :: junk.data := by
    intro u hu htag
    have hdir : (createTmpDirName blockId junk).data
        = tagL ++ blockId.data ++ '_' :: junk.data := by
      simp [createTmpDirName, String.data_append, tagL, List.append_assoc]
    have := hA u (by rw [hdir]; exact (List.mem_tails u _).mpr hu) htag
    rw [this, hdir]
  have hmain := decodeAux_designated pre.data blockId.data junk.data fileName.data hB hJ hA'
    ((getCodeFileDetails_eq_none_iff fileName).mp hF)
  unfold getCodeFileDetails
  rw [hdata, hmain]

/-! ## Claim C1 -/

/-- C1, counterexample.  The claim quantifies over arbitrary separator-free
junk, but the greedy `.*` of the decode pattern binds to the *last* matching
tag occurrence, so junk that itself contains a tag-shaped substring hijacks
the match: with blockId `b` (no underscore, no separator), junk
`vscode_gist_x_` (no separator) and fileName `f` (which does not match the
directory pattern), decoding the joined path yields blockId `x`, not `b`. -/
theorem codec_roundTrip_counterexample :
    (∀ c ∈ "b".data, c ≠ '_' ∧ c ≠ sep) ∧
    (∀ c ∈ "vscode_gist_x_".data, c ≠ sep) ∧
    getCodeFileDetails "f" = none ∧
    getCodeFileDetails (pathJoin (createTmpDirName "b" "vscode_gist_x_") "f")
      = some ⟨"x", "f"⟩ ∧
    (⟨"x", "f"⟩ : DocumentIdentity) ≠ ⟨"b", "f"⟩ := by
  decide

/-- C1, amended.  Round trip of the identity codec: for every blockId
containing no underscore and no separator, every separator-free junk suffix
such that the resulting directory name contains the tag `vscode_gist_` only
at its start, and every fileName that does not itself match the
directory-naming pattern, decoding the joined path yields exactly
`{ storageBlockId := blockId, fileName := fileName }`. -/
theorem codec_roundTrip_of_tag_free_dir (blockId junk fileName : String)
    (hB : ∀ c ∈ blockId.data, c ≠ '_' ∧ c ≠ sep)
    (hJ : ∀ c ∈ junk.data, c ≠ sep)
    (hTag : ∀ u ∈ (createTmpDirName blockId junk).data.tails,
        tagL.isPrefixOf u = true → u = (createTmpDirName blockId junk).data)
    (hF : getCodeFileDetails fileName = none) :
    getCodeFileDetails (pathJoin (createTmpDirName blockId junk) fileName)
      = some ⟨blockId, fileName⟩ := by
  have h := getCodeFileDetails_roundTrip "" blockId junk fileName
    (fun hmem => ((hB '_' hmem).1) rfl)
    (fun hmem => (hJ sep hmem) rfl)
    hTag hF
  exact h

/-- C1, witness: the amended round trip evaluated at blockId `abc123`, junk
`Xyz9` and fileName `index.js`. -/
theorem codec_roundTrip_of_tag_free_dir_witness :
    getCodeFileDetails "index.js" = none ∧
    getCodeFileDetails (pathJoin (createTmpDirName "abc123" "Xyz9") "index.js")
      = some ⟨"abc123", "index.js"⟩ :=
  ⟨by decide,
   codec_roundTrip_of_tag_free_dir "abc123" "Xyz9" "index.js"
     (by decide) (by decide) (by decide) (by decide)⟩

/-! ## Claim C10 -/

/-- C10, counterexample.  The path `vscode_gist__a/vscode_gist_B_r/f`
contains the directory segment `vscode_gist__a` (nothing between the tag's
trailing underscore and the next underscore), yet decoding does not return
the empty block id: the greedy pattern binds to the later segment and
returns blockId `B`, and saving such a document does call the provider. -/
theorem empty_blockId_decode_counterexample :
    (∃ rest : String,
        "vscode_gist__a/vscode_gist_B_r/f" = createTmpDirName "" "a" ++ sepS ++ rest) ∧
    getCodeFileDetails "vscode_gist__a/vscode_gist_B_r/f" = some ⟨"B", "f"⟩ ∧
    "B" ≠ "" ∧
    (onSaveTextDocument sampleProvider "vscode_gist__a/vscode_gist_B_r/f" "t").calls
      = [ProviderCall.editFile "B" "f" "t"] := by
  refine ⟨⟨"vscode_gist_B_r/f", by decide⟩, ?_, ?_, ?_⟩ <;> decide

/-- C10, amended.  For a path whose *last* matching occurrence is a directory
segment `vscode_gist__<junk>` (empty id segment: separator-free junk, tag
occurring only at the start of the directory name, trailing fileName not
itself matching the pattern), decode succeeds with
`storageBlockId = ""`, and `onSaveTextDocument` on such a document is a
complete no-op: no provider call, no notification, no error, nothing
thrown. -/
theorem empty_blockId_decode_noop (pre junk fileName docText : String) (env : ProviderEnv)
    (hJ : ∀ c ∈ junk.data, c ≠ sep)
    (hTag : ∀ u ∈ (createTmpDirName "" junk).data.tails,
        tagL.isPrefixOf u = true → u = (createTmpDirName "" junk).data)
    (hF : getCodeFileDetails fileName = none) :
    getCodeFileDetails (pre ++ pathJoin (createTmpDirName "" junk) fileName)
      = some ⟨"", fileName⟩ ∧
    onSaveTextDocument env (pre ++ pathJoin (createTmpDirName "" junk) fileName) docText
      = Trace.empty := by
  have hdec := getCodeFileDetails_roundTrip pre "" junk fileName
    (by simp) (fun hmem => (hJ sep hmem) rfl) hTag hF
  refine ⟨hdec, ?_⟩
  unfold onSaveTextDocument
  rw [hdec]
  simp

/-- C10, witness: the amended statement evaluated on the path
`/tmp/vscode_gist__r0/x.txt`. -/
theorem empty_blockId_decode_noop_witness :
    getCodeFileDetails "x.txt" = none ∧
    getCodeFileDetails ("/tmp" ++ pathJoin (createTmpDirName "" "r0") "x.txt")
      = some ⟨"", "x.txt"⟩ ∧
    onSaveTextDocument sampleProvider ("/tmp" ++ pathJoin (createTmpDirName "" "r0") "x.txt") "t"
      = Trace.empty := by
  refine ⟨by decide, ?_, ?_⟩
  · exact (empty_blockId_decode_noop "/tmp" "r0" "x.txt" "t" sampleProvider
      (by decide) (by decide) (by decide)).1
  · exact (empty_blockId_decode_noop "/tmp" "r0" "x.txt" "t" sampleProvider
      (by decide) (by decide) (by decide)).2

/-! ## Claim C2 -/

/-- C2: a saved document whose path does not decode is indeed given to no
provider call and no user-facing error notification — but the handler is not
a clean no-op: `_getCodeFileDetails` returns `undefined` for such a document
and `onSaveTextDocument` destructures that value *before* entering its `try`
block, so a TypeError escapes the handler and its promise rejects (the
`uncaught` field).  Evaluated at the failing input `/home/user/notes.txt`. -/
theorem onSave_unrelated_document_rejects :
    getCodeFileDetails "/home/user/notes.txt" = none ∧
    (onSaveTextDocument sampleProvider "/home/user/notes.txt" "hello").calls = [] ∧
    (onSaveTextDocument sampleProvider "/home/user/notes.txt" "hello").errors = [] ∧
    (onSaveTextDocument sampleProvider "/home/user/notes.txt" "hello").uncaught
      = some undefinedAccessMsg := by
  decide

/-! ## Claim C3 -/

/-- C3: the propagation policy fails for `onSaveTextDocument`: for *every*
document whose path does not decode, the destructuring of the `undefined`
result of `_getCodeFileDetails` sits outside the handler's `try` block, so
the TypeError it throws reaches the host uncaught.  (All other handlers wrap
their whole body in `try`.) -/
theorem onSave_uncaught_typeError (env : ProviderEnv) (docFileName docText : String)
    (h : getCodeFileDetails docFileName = none) :
    (onSaveTextDocument env docFileName docText).uncaught ≠ none := by
  unfold onSaveTextDocument
  rw [h]
  simp

/-- C3, witness: the uncaught rejection evaluated at `/etc/hosts`. -/
theorem onSave_uncaught_typeError_witness :
    getCodeFileDetails "/etc/hosts" = none ∧
    (onSaveTextDocument sampleProvider "/etc/hosts" "x").uncaught ≠ none :=
  ⟨by decide, onSave_uncaught_typeError sampleProvider "/etc/hosts" "x" (by decide)⟩

/-! ## Claim C4 -/

theorem decVal_append_digit (xs : List Char) (c : Char) :
    decVal (xs ++ [c]) = 10 * decVal xs + digitVal c := by
  unfold decVal
  rw [List.foldl_append]
  rfl

theorem decVal_numStrAux : ∀ fuel n, n ≤ fuel → decVal (numStrAux fuel n) = n := by
  intro fuel
  induction fuel with
  | zero =>
    intro n h
    have h0 : n = 0 := Nat.le_zero.mp h
    subst h0
    rfl
  | succ f ih =>
    intro n h
    match n with
    | 0 => rfl
    | m + 1 =>
      have hdiv : (m + 1) / 10 ≤ f := by
        have := Nat.div_lt_self (Nat.succ_pos m) (by omega : (1 : Nat) < 10)
        omega
      have hd : digitVal (digitChar ((m + 1) % 10)) = (m + 1) % 10 := by
        have hm : (m + 1) % 10 < 10 := Nat.mod_lt _ (by omega)
        have hall : ∀ d : Fin 10, digitVal (digitChar d.val) = d.val := by decide
        exact hall ⟨(m + 1) % 10, hm⟩
      rw [numStrAux, decVal_append_digit, ih _ hdiv, hd]
      exact Nat.div_add_mod (m + 1) 10

theorem decVal_numStr (n : Nat) : decVal (numStr n) = n := by
  unfold numStr
  by_cases h : n = 0
  · subst h; rfl
  · rw [if_neg h]
    exact decVal_numStrAux n n le_rfl

theorem numStr_injective : Function.Injective numStr := by
  intro a b h
  have h2 := congrArg decVal h
  rwa [decVal_numStr, decVal_numStr] at h2

theorem candidate_injective (original : List Char) :
    Function.Injective (candidate original) := by
  intro i j h
  unfold candidate at h
  exact numStr_injective (List.append_cancel_left (List.append_cancel_right h))

theorem resolveLoop_of_not_mem (files : List String) (original fn : List Char)
    (fuel i : Nat) (h : String.mk fn ∉ files) :
    resolveLoop files original fuel i fn = fn := by
  cases fuel with
  | zero => rfl
  | succ f => simp only [resolveLoop, if_neg h]

theorem resolveLoop_reaches (files : List String) (original : List Char) (i0 : Nat)
    (hmin : ∀ j, 1 ≤ j → j < i0 → String.mk (candidate original j) ∈ files)
    (hfree : String.mk (candidate original i0) ∉ files) :
    ∀ fuel i fn, 1 ≤ i → i ≤ i0 → i0 + 1 - i ≤ fuel → String.mk fn ∈ files →
      resolveLoop files original fuel i fn = candidate original i0 := by
  intro fuel
  induction fuel with
  | zero => intro i fn h1 h2 h3 _; omega
  | succ f ih =>
    intro i fn h1 h2 h3 hmem
    simp only [resolveLoop, if_pos hmem]
    by_cases hi : i = i0
    · subst hi
      exact resolveLoop_of_not_mem files original (candidate original i) f (i + 1) hfree
    · have hlt : i < i0 := lt_of_le_of_ne h2 hi
      exact ih (i + 1) (candidate original i) (by omega) (by omega) (by omega)
        (hmin i h1 hlt)

theorem min_index_bound (files : List String) (original : List Char) (i0 : Nat)
    (hmin : ∀ j, 1 ≤ j → j < i0 → String.mk (candidate original j) ∈ files) :
    i0 ≤ files.length + 1 := by
  by_contra hgt
  push_neg at hgt
  have hsub : ∀ s ∈ (List.range' 1 (files.length + 1)).map
      (fun j => String.mk (candidate original j)), s ∈ files := by
    intro s hs
    obtain ⟨j, hj, rfl⟩ := List.mem_map.mp hs
    obtain ⟨k, hk, rfl⟩ := List.mem_range'.mp hj
    exact hmin _ (by omega) (by omega)
  have hinj : Function.Injective (fun j => String.mk (candidate original j)) := by
    intro a b hab
    exact candidate_injective original (congrArg String.data hab)
  have hnodup : ((List.range' 1 (files.length + 1)).map
      (fun j => String.mk (candidate original j))).Nodup :=
    (List.nodup_range' 1 (files.length + 1)).map hinj
  have hlen := (hnodup.subperm hsub).length_le
  simp at hlen

theorem exists_free_candidate (files : List String) (original : List Char) :
    ∃ i0, 1 ≤ i0 ∧ String.mk (candidate original i0) ∉ files ∧
      ∀ j, 1 ≤ j → j < i0 → String.mk (candidate original j) ∈ files := by
  have hex : ∃ i, 1 ≤ i ∧ String.mk (candidate original i) ∉ files := by
    by_contra hall
    push_neg at hall
    have hmin : ∀ j, 1 ≤ j → j < files.length + 2 →
        String.mk (candidate original j) ∈ files :=
      fun j hj _ => hall j hj
    have := min_index_bound files original (files.length + 2) hmin
    omega
  refine ⟨Nat.find hex, (Nat.find_spec hex).1, (Nat.find_spec hex).2, ?_⟩
  intro j hj1 hj2
  by_contra hmem
  exact Nat.find_min hex hj2 ⟨hj1, hmem⟩

/-- C4: collision resolution in `addToCodeBlock`.  When the candidate file
name is no key of the target block's file mapping it is kept unchanged;
otherwise the persisted name is the candidate `base{i}.ext` (the counter
inserted immediately before the last-dot extension, or appended when there is
no dot) for the smallest `i ≥ 1` whose candidate is not a key; the resolved
name is never a key of the mapping (no overwrite); and in particular adding
`a.txt` next to `a.txt, a1.txt` yields `a2.txt` and `readme` next to
`readme` yields `readme1`. -/
theorem addToCodeBlock_collision_resolution (files : List String) (fileName : String) :
    (fileName ∉ files → resolveCollision files fileName = fileName) ∧
    (∀ i0, 1 ≤ i0 → fileName ∈ files →
      (∀ j, 1 ≤ j → j < i0 → String.mk (candidate fileName.data j) ∈ files) →
      String.mk (candidate fileName.data i0) ∉ files →
      resolveCollision files fileName = String.mk (candidate fileName.data i0)) ∧
    resolveCollision files fileName ∉ files ∧
    resolveCollision ["a.txt", "a1.txt"] "a.txt" = "a2.txt" ∧
    resolveCollision ["readme"] "readme" = "readme1" := by
  have key : ∀ i0, 1 ≤ i0 → fileName ∈ files →
      (∀ j, 1 ≤ j → j < i0 → String.mk (candidate fileName.data j) ∈ files) →
      String.mk (candidate fileName.data i0) ∉ files →
      resolveCollision files fileName = String.mk (candidate fileName.data i0) := by
    intro i0 h1 hmem hmin hfree
    have hbound := min_index_bound files fileName.data i0 hmin
    unfold resolveCollision
    rw [resolveLoop_reaches files fileName.data i0 hmin hfree (files.length + 1) 1
      fileName.data le_rfl h1 (by omega) hmem]
  have keep : fileName ∉ files → resolveCollision files fileName = fileName := by
    intro h
    unfold resolveCollision
    rw [resolveLoop_of_not_mem files fileName.data fileName.data (files.length + 1) 1 h]
  refine ⟨keep, key, ?_, by decide, by decide⟩
  by_cases h : fileName ∈ files
  · obtain ⟨i0, h1, hfree, hmin⟩ := exists_free_candidate files fileName.data
    rw [key i0 h1 h hmin hfree]
    exact hfree
  · rw [keep h]; exact h

/-- C4, witness: the minimal-index clause applied at files
`[a.txt, a1.txt]`, candidate `a.txt` and index `2`. -/
theorem addToCodeBlock_collision_resolution_witness :
    ("a.txt" ∈ ["a.txt", "a1.txt"] ∧
      String.mk (candidate "a.txt".data 2) ∉ ["a.txt", "a1.txt"]) ∧
    resolveCollision ["a.txt", "a1.txt"] "a.txt" = String.mk (candidate "a.txt".data 2) :=
  ⟨⟨by decide, by decide⟩,
   (addToCodeBlock_collision_resolution ["a.txt", "a1.txt"] "a.txt").2.1 2
     (by decide) (by decide)
     (fun j hj1 hj2 => by
       have hj : j = 1 := by omega
       subst hj
       decide)
     (by decide)⟩

/-! ## Claim C5 -/

/-- C5: the delete sweep does not close exactly the matching editors.  The
loop body executes `workbench.action.closeActiveEditor` once per visible
editor whose decoded block id matches, but that command closes whichever
editor is *active* at that moment, not the editor being examined.  With three
visible editors — two bound to block `B` (the first one active) and one bound
to `X` — and a host that focuses the last visible editor after each close,
the second close removes the `X` editor: afterwards a `B` editor is still
open and the `X` editor is gone, contradicting the claim (and the code's own
comment) that exactly the editors of the deleted block are closed. -/
theorem deleteCodeBlock_sweep_closes_wrong_editor :
    getCodeFileDetails "/tmp/vscode_gist_B_r1/a.txt" = some ⟨"B", "a.txt"⟩ ∧
    getCodeFileDetails "/tmp/vscode_gist_B_r1/b.txt" = some ⟨"B", "b.txt"⟩ ∧
    getCodeFileDetails "/tmp/vscode_gist_X_r2/c.txt" = some ⟨"X", "c.txt"⟩ ∧
    (deleteCodeBlock sampleProvider (fun l => l.getLast?)
        ⟨["/tmp/vscode_gist_B_r1/a.txt", "/tmp/vscode_gist_B_r1/b.txt",
          "/tmp/vscode_gist_X_r2/c.txt"],
         some "/tmp/vscode_gist_B_r1/a.txt"⟩).1.calls
      = [ProviderCall.deleteStorageBlock "B"] ∧
    (deleteCodeBlock sampleProvider (fun l => l.getLast?)
        ⟨["/tmp/vscode_gist_B_r1/a.txt", "/tmp/vscode_gist_B_r1/b.txt",
          "/tmp/vscode_gist_X_r2/c.txt"],
         some "/tmp/vscode_gist_B_r1/a.txt"⟩).2.openEditors
      = ["/tmp/vscode_gist_B_r1/b.txt"] ∧
    (["/tmp/vscode_gist_B_r1/b.txt"] : List String) ≠ ["/tmp/vscode_gist_X_r2/c.txt"] := by
  refine ⟨?_, ?_, ?_, ?_, ?_, ?_⟩ <;> decide

/-! ## Claim C6 -/

theorem openFilesLoop_editors (dir : String) :
    ∀ (files : List (String × String)) (i : Nat) (w : WindowState),
      (openFilesLoop dir files i w).2.2.openEditors
        = w.openEditors ++ files.map (fun p => pathJoin dir p.1) := by
  intro files
  induction files with
  | nil => intro i w; simp [openFilesLoop]
  | cons p rest ih =>
    intro i w
    obtain ⟨fn, content⟩ := p
    simp only [openFilesLoop, ih, List.map_cons]
    simp [List.append_assoc]

theorem openFilesLoop_writes (dir : String) :
    ∀ (files : List (String × String)) (i : Nat) (w : WindowState),
      (openFilesLoop dir files i w).2.1
        = files.map (fun p => (pathJoin dir p.1, p.2)) := by
  intro files
  induction files with
  | nil => intro i w; simp [openFilesLoop]
  | cons p rest ih =>
    intro i w
    obtain ⟨fn, content⟩ := p
    simp only [openFilesLoop, ih, List.map_cons]

theorem openFilesLoop_split_count (dir : String) :
    ∀ (files : List (String × String)) (i : Nat) (w : WindowState), 1 ≤ i →
      ((openFilesLoop dir files i w).1.count "workbench.action.splitEditor"
        = if 1 < i then files.length else files.length - 1) := by
  intro files
  induction files with
  | nil => intro i w hi; simp [openFilesLoop]
  | cons p rest ih =>
    intro i w hi
    obtain ⟨fn, content⟩ := p
    have hrec := ih (i + 1) ⟨w.openEditors ++ [pathJoin dir fn], some (pathJoin dir fn)⟩
      (by omega)
    simp only [openFilesLoop, List.count_append, hrec, if_pos (by omega : 1 < i + 1)]
    by_cases h1 : 1 < i
    · rw [if_pos h1, if_pos h1]
      have hc : (["workbench.action.focusFirstEditorGroup",
          "workbench.action.splitEditor"] : List String).count
          "workbench.action.splitEditor" = 1 := by decide
      rw [hc]
      simp [Nat.add_comm]
    · rw [if_neg h1, if_neg h1]
      have hieq : i = 1 := by omega
      subst hieq
      simp

theorem pathJoin_pathJoin (a b c : String) :
    pathJoin (pathJoin a b) c = (a ++ sepS) ++ pathJoin b c := by
  simp [pathJoin, String.append_assoc]

/-- C6, counterexample.  Re-opening block `B` while one of its editors is
already open and active: `closeOtherEditors` keeps the active editor, so
after the (successful) open the file `a.txt` of block `B` has *two* open
editors whose paths decode to `(B, a.txt)`, not exactly one. -/
theorem openCodeBlock_duplicate_editor_counterexample :
    (openCodeBlock sampleBlockProvider none none (some 0) false "/tmp" "j2"
        ⟨["/tmp/vscode_gist_B_j1/a.txt"], some "/tmp/vscode_gist_B_j1/a.txt"⟩).1.writes
      = [("/tmp/vscode_gist_B_j2/a.txt", "txt")] ∧
    (openCodeBlock sampleBlockProvider none none (some 0) false "/tmp" "j2"
        ⟨["/tmp/vscode_gist_B_j1/a.txt"], some "/tmp/vscode_gist_B_j1/a.txt"⟩).2.openEditors
      = ["/tmp/vscode_gist_B_j1/a.txt", "/tmp/vscode_gist_B_j2/a.txt"] ∧
    ((openCodeBlock sampleBlockProvider none none (some 0) false "/tmp" "j2"
        ⟨["/tmp/vscode_gist_B_j1/a.txt"], some "/tmp/vscode_gist_B_j1/a.txt"⟩).2.openEditors.countP
      (fun e => decide (getCodeFileDetails e = some ⟨"B", "a.txt"⟩))) = 2 := by
  refine ⟨?_, ?_, ?_⟩ <;> decide

/-- C6, amended.  When `openCodeBlock` obtains a block it writes every
`(fileName, content)` pair of the block under the freshly allocated working
directory in the iteration order of the file mapping, opens them as editors
in that order with one split per file after the first, and — under the codec
side conditions (block id without underscore, separator-free junk, tag only
at the start of the directory name, file names of the block not matching the
pattern) and provided the editors surviving the initial close-others step do
not decode to the opened block id — every file of the block ends with
exactly one open editor whose path decodes to `(blockId, thatFileName)`. -/
theorem closeOthers_openEditors (w : WindowState) :
    (match w.active with
      | some a => (⟨[a], some a⟩ : WindowState)
      | none => w).openEditors = survivors w := by
  unfold survivors
  cases w.active <;> rfl

theorem openCodeBlock_opens_every_file (env : ProviderEnv) (uIn pIn : Option String)
    (pick : Option Nat) (favorite : Bool) (tmpParent junk : String) (w : WindowState)
    (cb : StorageBlock) (cs : List ProviderCall)
    (hsel : selectCodeBlock env uIn pIn pick favorite = (.ok (some cb), cs))
    (hid : ∀ c ∈ cb.id.data, c ≠ '_')
    (hJ : ∀ c ∈ junk.data, c ≠ sep)
    (hTag : ∀ u ∈ (createTmpDirName cb.id junk).data.tails,
        tagL.isPrefixOf u = true → u = (createTmpDirName cb.id junk).data)
    (hNames : (cb.files.map Prod.fst).Nodup)
    (hFn : ∀ p ∈ cb.files, getCodeFileDetails p.1 = none)
    (hSurvive : ∀ e ∈ survivors w, ∀ d, getCodeFileDetails e = some d →
        d.storageBlockId ≠ cb.id) :
    (openCodeBlock env uIn pIn pick favorite tmpParent junk w).1.writes
      = cb.files.map
          (fun p => (pathJoin (pathJoin tmpParent (createTmpDirName cb.id junk)) p.1, p.2)) ∧
    (openCodeBlock env uIn pIn pick favorite tmpParent junk w).2.openEditors
      = survivors w
        ++ cb.files.map (fun p => pathJoin (pathJoin tmpParent (createTmpDirName cb.id junk)) p.1) ∧
    (openCodeBlock env uIn pIn pick favorite tmpParent junk w).1.uiCommands.count
        "workbench.action.splitEditor" = cb.files.length - 1 ∧
    ∀ p ∈ cb.files,
      ((openCodeBlock env uIn pIn pick favorite tmpParent junk w).2.openEditors.countP
        (fun e => decide (getCodeFileDetails e = some ⟨cb.id, p.1⟩))) = 1 := by
  have hdecode : ∀ q ∈ cb.files,
      getCodeFileDetails (pathJoin (pathJoin tmpParent (createTmpDirName cb.id junk)) q.1)
        = some ⟨cb.id, q.1⟩ := by
    intro q hq
    rw [pathJoin_pathJoin]
    exact getCodeFileDetails_roundTrip (tmpParent ++ sepS) cb.id junk q.1
      (fun hmem => (hid '_' hmem) rfl)
      (fun hmem => (hJ sep hmem) rfl)
      hTag (hFn q hq)
  simp only [openCodeBlock, hsel]
  refine ⟨?_, ?_, ?_, ?_⟩
  · rw [openFilesLoop_writes]
  · rw [openFilesLoop_editors, closeOthers_openEditors]
  · rw [List.count_append, openFilesLoop_split_count _ cb.files 1 _ le_rfl,
      if_neg (by omega : ¬ (1 : Nat) < 1)]
    cases hw : w.active with
    | some a =>
      have hc : (["workbench.action.closeOtherEditors"] : List String).count
          "workbench.action.splitEditor" = 0 := by decide
      simp [hc]
    | none => simp
  · intro p hp
    have hone : List.countP ((fun x : String => x == p.1) ∘ Prod.fst) cb.files = 1 := by
      have hcnt : List.count p.1 (cb.files.map Prod.fst) = 1 :=
        List.count_eq_one_of_mem hNames (List.mem_map_of_mem Prod.fst hp)
      rwa [List.count_eq_countP, List.countP_map] at hcnt
    have hiff : ∀ q ∈ cb.files,
        ((fun e => decide (getCodeFileDetails e = some ⟨cb.id, p.1⟩))
          ∘ (fun q : String × String =>
              pathJoin (pathJoin tmpParent (createTmpDirName cb.id junk)) q.1)) q = true
        ↔ ((fun x : String => x == p.1) ∘ Prod.fst) q = true := by
      intro q hq
      simp only [Function.comp]
      rw [hdecode q hq]
      simp [beq_iff_eq]
    have hz : List.countP (fun e => decide (getCodeFileDetails e = some ⟨cb.id, p.1⟩))
        (survivors w) = 0 := by
      apply List.countP_eq_zero.mpr
      intro e he hdec
      exact hSurvive e he ⟨cb.id, p.1⟩ (of_decide_eq_true hdec) rfl
    rw [openFilesLoop_editors, closeOthers_openEditors, List.countP_append, hz,
      List.countP_map, List.countP_congr hiff, hone]

/-- C6, witness: the amended open theorem evaluated on a two-file block
opened into an empty window. -/
theorem openCodeBlock_opens_every_file_witness :
    (openCodeBlock sampleBlock2Provider none none (some 0) false "/tmp" "r9"
        ⟨[], none⟩).1.writes
      = sampleBlock2.files.map
          (fun p => (pathJoin (pathJoin "/tmp" (createTmpDirName sampleBlock2.id "r9")) p.1, p.2)) ∧
    (openCodeBlock sampleBlock2Provider none none (some 0) false "/tmp" "r9"
        ⟨[], none⟩).2.openEditors
      = survivors ⟨[], none⟩
        ++ sampleBlock2.files.map
            (fun p => pathJoin (pathJoin "/tmp" (createTmpDirName sampleBlock2.id "r9")) p.1) ∧
    (openCodeBlock sampleBlock2Provider none none (some 0) false "/tmp" "r9"
        ⟨[], none⟩).1.uiCommands.count "workbench.action.splitEditor"
      = sampleBlock2.files.length - 1 ∧
    ∀ p ∈ sampleBlock2.files,
      ((openCodeBlock sampleBlock2Provider none none (some 0) false "/tmp" "r9"
          ⟨[], none⟩).2.openEditors.countP
        (fun e => decide (getCodeFileDetails e = some ⟨sampleBlock2.id, p.1⟩))) = 1 :=
  openCodeBlock_opens_every_file sampleBlock2Provider none none (some 0) false "/tmp" "r9"
    ⟨[], none⟩ sampleBlock2 [.list false, .getStorageBlock "u2"] rfl
    (by decide) (by decide) (by decide) (by decide) (by decide)
    (fun e he => absurd he (List.not_mem_nil e))

/-! ## Claim C7 -/

/-- C7: `createCodeBlock` with no focused editor makes no provider call and
surfaces exactly the validation error notification; with a focused editor the
created file's content is the selection text when the selection is non-empty
and the whole document text otherwise. -/
theorem createCodeBlock_validation_and_text (env : ProviderEnv) (descIn privIn : Option String) :
    ((createCodeBlock env none descIn privIn).calls = [] ∧
      (createCodeBlock env none descIn privIn).errors
        = [showErrorMsg env.name "Open a file before creating"]) ∧
    ∀ (ed : Editor) (pv : String),
      (createCodeBlock env (some ed) descIn (some pv)).calls
        = [ProviderCall.createFile
            (if basename ed.docFileName = "" then "untitled.txt" else basename ed.docFileName)
            descIn
            (if ed.selEmpty then ed.fullText else ed.selText)
            (((pv.take 1).data.map Char.toLower) == "y".data)] := by
  refine ⟨⟨rfl, rfl⟩, ?_⟩
  intro ed pv
  simp only [createCodeBlock]
  cases hr : env.createFile
      (if basename ed.docFileName = "" then "untitled.txt" else basename ed.docFileName)
      descIn (if ed.selEmpty then ed.fullText else ed.selText)
      (((pv.take 1).data.map Char.toLower) == "y".data) with
  | error e => rfl
  | ok sb => rfl

/-- C7, witness: the validation failure and the selection rule evaluated at a
concrete editor with a non-empty selection. -/
theorem createCodeBlock_validation_and_text_witness :
    ((createCodeBlock sampleProvider none none none).calls = [] ∧
      (createCodeBlock sampleProvider none none none).errors
        = ["GIST ERROR: Open a file before creating [github]"]) ∧
    (createCodeBlock sampleProvider (some ⟨"/x/y.txt", "full", false, "sel"⟩)
        none (some "y")).calls
      = [ProviderCall.createFile "y.txt" none "sel" true] :=
  ⟨(createCodeBlock_validation_and_text sampleProvider none none).1,
   ((createCodeBlock_validation_and_text sampleProvider none (some "y")).2
     ⟨"/x/y.txt", "full", false, "sel"⟩ "y").trans (by decide)⟩

/-! ## Claim C8 -/

/-- C8: `changeCodeBlockDescription` prompts with the block's current
description pre-filled; a cancelled or empty answer returns with no further
provider call, no error and no notification; a non-empty answer makes the
provider persist exactly that description for the resolved block id. -/
theorem changeCodeBlockDescription_prompt (env : ProviderEnv) (w : WindowState)
    (descIn : Option String) (a : String) (d : DocumentIdentity) (cb : StorageBlock)
    (hact : w.active = some a)
    (hdec : getCodeFileDetails a = some d)
    (hget : env.getStorageBlockById d.storageBlockId = .ok cb) :
    (changeCodeBlockDescription env w descIn).prompts
      = [("Enter Description", some cb.description)] ∧
    ((descIn = none ∨ descIn = some "") →
      (changeCodeBlockDescription env w descIn).calls
        = [ProviderCall.getStorageBlockById d.storageBlockId] ∧
      (changeCodeBlockDescription env w descIn).errors = [] ∧
      (changeCodeBlockDescription env w descIn).notes = []) ∧
    ∀ desc, descIn = some desc → desc ≠ "" →
      (changeCodeBlockDescription env w descIn).calls
        = [ProviderCall.getStorageBlockById d.storageBlockId,
           ProviderCall.changeDescription d.storageBlockId desc] := by
  cases descIn with
  | none =>
    refine ⟨?_, ?_, ?_⟩
    · simp [changeCodeBlockDescription, getCurrentDocument, Trace.empty, hact, hdec, hget]
    · intro _
      refine ⟨?_, ?_, ?_⟩ <;>
        simp [changeCodeBlockDescription, getCurrentDocument, Trace.empty, hact, hdec, hget]
    · intro desc hcontra hne
      exact absurd hcontra (by simp)
  | some desc0 =>
    by_cases hd : desc0 = ""
    · subst hd
      refine ⟨?_, ?_, ?_⟩
      · simp [changeCodeBlockDescription, getCurrentDocument, Trace.empty, hact, hdec, hget]
      · intro _
        refine ⟨?_, ?_, ?_⟩ <;>
          simp [changeCodeBlockDescription, getCurrentDocument, Trace.empty, hact, hdec, hget]
      · intro desc heq hne
        injection heq with h2
        exact absurd h2.symm hne
    · refine ⟨?_, ?_, ?_⟩
      · cases hc : env.changeDescription d.storageBlockId desc0 <;>
          simp [changeCodeBlockDescription, getCurrentDocument, Trace.empty, hact, hdec, hget, hd, hc]
      · intro hcontra
        rcases hcontra with h | h
        · exact absurd h (by simp)
        · injection h with h2
          exact absurd h2 hd
      · intro desc heq hne
        obtain rfl : desc0 = desc := by injection heq
        cases hc : env.changeDescription d.storageBlockId desc0 <;>
          simp [changeCodeBlockDescription, getCurrentDocument, Trace.empty, hact, hdec, hget, hd, hc]

/-- C8, witness: prompting and persisting evaluated at a concrete window
bound to block `B` with current description `d`. -/
theorem changeCodeBlockDescription_prompt_witness :
    getCodeFileDetails "/tmp/vscode_gist_B_j1/a.txt" = some ⟨"B", "a.txt"⟩ ∧
    (changeCodeBlockDescription sampleBlockProvider
        ⟨["/tmp/vscode_gist_B_j1/a.txt"], some "/tmp/vscode_gist_B_j1/a.txt"⟩
        (some "better words")).prompts
      = [("Enter Description", some sampleBlock.description)] ∧
    (changeCodeBlockDescription sampleBlockProvider
        ⟨["/tmp/vscode_gist_B_j1/a.txt"], some "/tmp/vscode_gist_B_j1/a.txt"⟩
        (some "better words")).calls
      = [ProviderCall.getStorageBlockById "B",
         ProviderCall.changeDescription "B" "better words"] :=
  ⟨by decide,
   (changeCodeBlockDescription_prompt sampleBlockProvider
      ⟨["/tmp/vscode_gist_B_j1/a.txt"], some "/tmp/vscode_gist_B_j1/a.txt"⟩
      (some "better words") "/tmp/vscode_gist_B_j1/a.txt" ⟨"B", "a.txt"⟩ sampleBlock
      rfl (by decide) rfl).1,
   (changeCodeBlockDescription_prompt sampleBlockProvider
      ⟨["/tmp/vscode_gist_B_j1/a.txt"], some "/tmp/vscode_gist_B_j1/a.txt"⟩
      (some "better words") "/tmp/vscode_gist_B_j1/a.txt" ⟨"B", "a.txt"⟩ sampleBlock
      rfl (by decide) rfl).2.2 "better words" rfl (by decide)⟩

/-! ## Claim C9 -/

/-- C9: the login gate of `_selectCodeBlock`.  Whenever the provider's list
operation appears in the call trace, either the provider was already
authenticated, or the trace begins with a login call (with the trimmed
prompted credentials) that succeeded; in particular a failed or aborted
login never reaches the list call. -/
theorem selectCodeBlock_login_gate (env : ProviderEnv) (uIn pIn : Option String)
    (pick : Option Nat) (favorite : Bool)
    (hlist : ProviderCall.list favorite ∈ (selectCodeBlock env uIn pIn pick favorite).2) :
    env.isAuthenticated = true ∨
    ∃ u p, (selectCodeBlock env uIn pIn pick favorite).2.head? = some (.login u p) ∧
      env.login u p = .ok () := by
  cases hauth : env.isAuthenticated with
  | true => exact Or.inl rfl
  | false =>
    right
    cases uIn with
    | none =>
      simp [selectCodeBlock, loginUser, hauth] at hlist
    | some u =>
      cases pIn with
      | none =>
        simp [selectCodeBlock, loginUser, hauth] at hlist
      | some p =>
        cases hl : env.login u.trim p.trim with
        | error e =>
          simp [selectCodeBlock, loginUser, hauth, hl] at hlist
        | ok x =>
          refine ⟨u.trim, p.trim, ?_, hl⟩
          simp only [selectCodeBlock, loginUser, hauth, hl]
          cases henvl : env.list favorite with
          | error e => simp [henvl]
          | ok files =>
            cases hbind : pick.bind files.get? with
            | none =>
              simp only [List.get?_eq_getElem?] at hbind
              simp [henvl, hbind]
            | some sel =>
              simp only [List.get?_eq_getElem?] at hbind
              cases hg : env.getStorageBlock sel.url with
              | error e => simp [henvl, hbind, hg]
              | ok cb2 => simp [henvl, hbind, hg]

/-- C9, witness: an authenticated provider lists without any login call. -/
theorem selectCodeBlock_login_gate_witness :
    ProviderCall.list false ∈ (selectCodeBlock sampleProvider none none none false).2 ∧
    (sampleProvider.isAuthenticated = true ∨
      ∃ u p, (selectCodeBlock sampleProvider none none none false).2.head?
          = some (.login u p) ∧
        sampleProvider.login u p = .ok ()) :=
  ⟨by decide, selectCodeBlock_login_gate sampleProvider none none none false (by decide)⟩

end VscodeGist
